import Mathlib

set_option maxHeartbeats 1000000

/-!
Verification of the game-state core of `tetris.cpp` (console Tetris):
piece catalog and rotation, collision checking, piece locking, line
clearing, scoring and level progression, spawning, and the main-loop
state transitions.  Definitions follow the C++ source; theorems settle
the specified properties.
-/

/-- `BOARD_W` from the source. -/
def BOARD_W : Nat := 10

/-- `BOARD_H` from the source. -/
def BOARD_H : Nat := 20

/-- A piece's 4x4 cell grid (`Piece.cells` in the source; the 0/1 ints
are modelled as `Bool`).  The `size` field of the C++ struct is only
used during normalization and is not kept. -/
abbrev Shape : Type := Fin 4 → Fin 4 → Bool

/-- `TETROMINO`: the seven tetromino definitions as string grids,
`X` = filled, `.` = empty. -/
def TETROMINO : List (List String) := [
  ["....", "XXXX", "....", "...."],
  ["X..", "XXX", "..."],
  ["..X", "XXX", "..."],
  ["XX", "XX"],
  [".XX", "XX.", "..."],
  [".X.", "XXX", "..."],
  ["XX.", ".XX", "..."]]

/-- `toPiece` inside `initPieces`: read the string grid (cell `(r,c)` is
filled iff the character is `X`, for `r,c` below the grid's size) and
embed it top-left into a 4x4 grid whose remaining cells are empty. -/
def toShape (shape : List String) : Shape := fun r c =>
  if r.val < shape.length ∧ c.val < shape.length then
    (((shape[r.val]?).getD "").toList[c.val]?).getD '.' == 'X'
  else false

/-- The global `pieces` table filled by `initPieces`. -/
def pieces (id : Fin 7) : Shape := toShape ((TETROMINO[id.val]?).getD [])

/-- One clockwise rotation (one pass of the `while(times--)` loop in
`rotatePiece`): `nw.cells[r][c] = cur.cells[3-c][r]`. -/
def rotateStep (p : Shape) : Shape := fun r c => p (3 - c) r

/-- `rotatePiece`: rotate clockwise `times % 4` times (the source
normalizes the count with `(times%4+4)%4`; for non-negative counts this
is `times % 4`). -/
def rotatePiece (p : Shape) (times : Nat) : Shape := rotateStep^[times % 4] p

/-- Number of filled cells of a shape. -/
def countCells (p : Shape) : Nat :=
  ((List.finRange 4).map
    (fun r => ((List.finRange 4).filter (fun c => p r c)).length)).sum

lemma rotateStep_apply (p : Shape) (r c : Fin 4) :
    rotateStep p r c = p (3 - c) r := rfl

lemma rotateStep_four (p : Shape) :
    rotateStep (rotateStep (rotateStep (rotateStep p))) = p := by
  funext r c
  have h3 : ∀ x : Fin 4, 3 - (3 - x) = x := by decide
  show p (3 - (3 - r)) (3 - (3 - c)) = p r c
  rw [h3, h3]

lemma rotate_iterate_mod : ∀ (n : Nat) (p : Shape),
    rotateStep^[n] p = rotateStep^[n % 4] p := by
  intro n
  induction n using Nat.strong_induction_on with
  | _ n ih =>
    intro p
    by_cases h : n < 4
    · rw [Nat.mod_eq_of_lt h]
    · have h4 : n = (n - 4) + 4 := by omega
      have hit : rotateStep^[4] p = p := rotateStep_four p
      rw [h4, Function.iterate_add_apply, hit, ih (n - 4) (by omega)]
      have hmod : (n - 4) % 4 = (n - 4 + 4) % 4 := by omega
      rw [hmod]

/-- C7: rotation of a 4x4 shape is the cyclic group of order 4: one
clockwise rotation satisfies `new[r][c] = old[3-c][r]`; rotating 4 times
is the identity; and rotation counts compose additively. -/
theorem rotation_group (s : Shape) (t1 t2 : Nat) :
    (∀ r c : Fin 4, rotatePiece s 1 r c = s (3 - c) r) ∧
    rotatePiece s 4 = s ∧
    rotatePiece s (t1 + t2) = rotatePiece (rotatePiece s t1) t2 := by
  refine ⟨fun r c => rfl, rfl, ?_⟩
  show rotateStep^[(t1 + t2) % 4] s = rotateStep^[t2 % 4] (rotateStep^[t1 % 4] s)
  have h := rotate_iterate_mod (t2 % 4 + t1 % 4) s
  rw [← Function.iterate_add_apply, h]
  have heq : (t1 + t2) % 4 = (t2 % 4 + t1 % 4) % 4 := by omega
  rw [heq]

/-- C8: every one of the 7 piece kinds has exactly 4 cells set in every
orientation. -/
theorem shapes_four_cells :
    ∀ (id : Fin 7) (rot : Fin 4),
      countCells (rotatePiece (pieces id) rot.val) = 4 := by decide

/-- The board: rows top (0) to bottom (H-1), each row a list of cells,
`0` = empty, `> 0` = filled with piece id + 1 (`vector<vector<int>>` in
the source). -/
abbrev Board : Type := List (List Nat)

/-- Read board cell `(i, j)` (row `i`, column `j`); out-of-range reads
yield `0` (the C++ never reads out of range on an in-invariant board). -/
def getCell (b : Board) (i j : Nat) : Nat := (((b[i]?).getD [])[j]?).getD 0

/-- Write board cell `(i, j)`; out-of-range writes are dropped (the C++
never writes out of range on an in-invariant board). -/
def setCell (b : Board) (i j : Nat) (v : Nat) : Board :=
  b.set i (((b[i]?).getD []).set j v)

/-- The per-cell test of `collides`: for a filled frame cell landing at
board row `br = y + r`, column `bc = x + c`, the source returns `true`
(collision) if `bc < 0 || bc >= BOARD_W || br >= BOARD_H`, and otherwise
if `br >= 0 && g.board[br][bc]`. -/
def cellHit (b : Board) (x y : Int) (r c : Fin 4) : Bool :=
  let br : Int := y + r.val
  let bc : Int := x + c.val
  (decide (bc < 0) || decide ((BOARD_W : Int) ≤ bc) ||
    decide ((BOARD_H : Int) ≤ br)) ||
  (decide (0 ≤ br) && decide (getCell b br.toNat bc.toNat ≠ 0))

/-- `collides(g, pieceId, rot, x, y)`: rotate the piece, then scan the
16 frame cells; empty cells are skipped, any filled cell that hits is a
collision. -/
def collides (b : Board) (pieceId : Fin 7) (rot : Nat) (x y : Int) : Bool :=
  let p := rotatePiece (pieces pieceId) rot
  (List.finRange 4).any fun r =>
    (List.finRange 4).any fun c => p r c && cellHit b x y r c

/-- C1: the collision check returns illegal exactly when some cell set in
the rotated shape lands at column < 0, column ≥ W, row ≥ H, or at a row
≥ 0 whose board cell is occupied; cells landing at row < 0 are tested
only against the column bounds, never against occupancy. -/
theorem collides_iff (b : Board) (pieceId : Fin 7) (rot : Nat) (x y : Int) :
    collides b pieceId rot x y = true ↔
      ∃ r c : Fin 4, rotatePiece (pieces pieceId) rot r c = true ∧
        (x + c.val < 0 ∨ (BOARD_W : Int) ≤ x + c.val ∨
          (BOARD_H : Int) ≤ y + r.val ∨
          (0 ≤ y + r.val ∧
            getCell b (y + r.val).toNat (x + c.val).toNat ≠ 0)) := by
  simp only [collides, cellHit, List.any_eq_true, List.mem_finRange,
    true_and, Bool.and_eq_true, Bool.or_eq_true, decide_eq_true_eq]
  constructor
  · rintro ⟨r, c, hp, h⟩
    exact ⟨r, c, hp, by tauto⟩
  · rintro ⟨r, c, hp, h⟩
    exact ⟨r, c, hp, by tauto⟩

/-- The `Game` struct: board, active piece (kind, rotation, anchor),
next piece kind, game-over flag, score, level, cleared-line count. -/
structure Game where
  board : Board
  curPieceId : Fin 7
  curRot : Nat
  curX : Int
  curY : Int
  nextPieceId : Fin 7
  gameOver : Bool
  score : Nat
  level : Nat
  linesCleared : Nat

deriving instance DecidableEq for Game

/-- The double loop of `placePiece`: for each filled cell of the rotated
shape, compute `br = curY + r`, `bc = curX + c` and, when
`br>=0 && br<BOARD_H && bc>=0 && bc<BOARD_W`, store `v` (the piece id
plus one) at `(br, bc)`. -/
def placeCells (p : Shape) (v : Nat) (x y : Int) (b : Board) : Board :=
  (List.finRange 4).foldl (fun b r =>
    (List.finRange 4).foldl (fun b c =>
      if p r c then
        if 0 ≤ y + (r.val : Int) ∧ y + (r.val : Int) < (BOARD_H : Int) ∧
            0 ≤ x + (c.val : Int) ∧ x + (c.val : Int) < (BOARD_W : Int) then
          setCell b (y + (r.val : Int)).toNat (x + (c.val : Int)).toNat v
        else b
      else b) b) b

/-- `placePiece`: commit the active piece's cells into the board, tagged
`curPieceId + 1`. -/
def placePiece (g : Game) : Game :=
  {g with board := (placeCells (rotatePiece (pieces g.curPieceId) g.curRot)
    (g.curPieceId.val + 1) g.curX g.curY g.board)}

lemma length_setCell (b : Board) (i j v : Nat) :
    (setCell b i j v).length = b.length := List.length_set ..

lemma rowLen_setCell (b : Board) (i j v : Nat) (k : Nat) :
    (((setCell b i j v)[k]?).getD []).length = ((b[k]?).getD []).length := by
  unfold setCell
  by_cases hk : i = k
  · subst hk
    by_cases hi : i < b.length
    · rw [List.getElem?_set_self hi]
      simp
    · rw [List.set_eq_of_length_le (by omega)]
  · rw [List.getElem?_set_ne hk]

lemma getCell_setCell_or (b : Board) (i0 j0 v i j : Nat) :
    getCell (setCell b i0 j0 v) i j = getCell b i j ∨
      getCell (setCell b i0 j0 v) i j = v := by
  unfold getCell setCell
  by_cases hi : i0 = i
  · subst hi
    by_cases hlen : i0 < b.length
    · rw [List.getElem?_set_self hlen]
      simp only [Option.getD_some]
      by_cases hj : j0 = j
      · subst hj
        by_cases hjlen : j0 < ((b[i0]?).getD []).length
        · rw [List.getElem?_set_self hjlen]
          right; rfl
        · rw [List.set_eq_of_length_le (by omega)]
          left; rfl
      · rw [List.getElem?_set_ne hj]
        left; rfl
    · rw [List.set_eq_of_length_le (by omega)]
      left; rfl
  · rw [List.getElem?_set_ne hi]
    left; rfl

/-- Invariant maintained by the write loop of `placePiece`: dimensions
are unchanged, and any cell that differs from the starting board `b0`
holds the written value `v`. -/
def WriteInv (b0 b : Board) (v : Nat) : Prop :=
  b.length = b0.length ∧
  (∀ k : Nat, ((b[k]?).getD []).length = ((b0[k]?).getD []).length) ∧
  (∀ i j : Nat, getCell b i j ≠ getCell b0 i j → getCell b i j = v)

lemma writeInv_refl (b0 : Board) (v : Nat) : WriteInv b0 b0 v :=
  ⟨rfl, fun _ => rfl, fun _ _ h => absurd rfl h⟩

lemma writeInv_setCell {b0 b : Board} {v : Nat} (h : WriteInv b0 b v)
    (i0 j0 : Nat) : WriteInv b0 (setCell b i0 j0 v) v := by
  obtain ⟨hlen, hrow, hcell⟩ := h
  refine ⟨(length_setCell ..).trans hlen,
    fun k => (rowLen_setCell ..).trans (hrow k), fun i j hne => ?_⟩
  rcases getCell_setCell_or b i0 j0 v i j with heq | heq
  · rw [heq] at hne ⊢
    exact hcell i j hne
  · exact heq

lemma foldl_preserves {α β : Type} (P : β → Prop) (f : β → α → β)
    (hstep : ∀ b a, P b → P (f b a)) :
    ∀ (l : List α) (b : β), P b → P (l.foldl f b) := by
  intro l
  induction l with
  | nil => exact fun b h => h
  | cons a t ih => exact fun b h => ih (f b a) (hstep b a h)

lemma writeInv_placeCells (p : Shape) (v : Nat) (x y : Int) (b0 : Board) :
    WriteInv b0 (placeCells p v x y b0) v := by
  unfold placeCells
  refine foldl_preserves (fun b => WriteInv b0 b v) _ (fun b r h => ?_) _ b0
    (writeInv_refl b0 v)
  refine foldl_preserves (fun b => WriteInv b0 b v) _ (fun b c h => ?_) _ b h
  dsimp only
  split
  · split
    · exact writeInv_setCell h ..
    · exact h
  · exact h

/-- C10: locking writes only to in-range cells (cells of the piece
falling outside `[0,H) × [0,W)` are skipped), every written cell holds
the piece id plus one (hence is nonzero), and the board keeps exactly
`H` rows of `W` columns. -/
theorem placePiece_safe (g : Game) (hH : g.board.length = BOARD_H)
    (hW : ∀ row ∈ g.board, row.length = BOARD_W) :
    (placePiece g).board.length = BOARD_H ∧
    (∀ row ∈ (placePiece g).board, row.length = BOARD_W) ∧
    (∀ i j, getCell (placePiece g).board i j ≠ getCell g.board i j →
      i < BOARD_H ∧ j < BOARD_W ∧
      getCell (placePiece g).board i j = g.curPieceId.val + 1 ∧
      getCell (placePiece g).board i j ≠ 0) := by
  obtain ⟨hlen, hrow, hcell⟩ := writeInv_placeCells
    (rotatePiece (pieces g.curPieceId) g.curRot) (g.curPieceId.val + 1)
    g.curX g.curY g.board
  have hblen : (placePiece g).board.length = BOARD_H := by
    rw [show (placePiece g).board = placeCells (rotatePiece
      (pieces g.curPieceId) g.curRot) (g.curPieceId.val + 1) g.curX g.curY
      g.board from rfl]
    omega
  have hbrow : ∀ row ∈ (placePiece g).board, row.length = BOARD_W := by
    intro row hmem
    obtain ⟨k, hk⟩ := List.mem_iff_getElem?.mp hmem
    have hkl : k < g.board.length := by
      obtain ⟨h1, -⟩ := List.getElem?_eq_some.mp hk
      have hpl : (placePiece g).board.length = g.board.length := hlen
      omega
    have hrow0 : g.board[k]? = some g.board[k] := List.getElem?_eq_getElem hkl
    have hmem0 : g.board[k] ∈ g.board := List.mem_iff_getElem?.mpr ⟨k, hrow0⟩
    have hk2 := hrow k
    rw [show (placePiece g).board = placeCells (rotatePiece
      (pieces g.curPieceId) g.curRot) (g.curPieceId.val + 1) g.curX g.curY
      g.board from rfl] at hk
    rw [hk, hrow0] at hk2
    simp only [Option.getD_some] at hk2
    rw [hk2]
    exact hW _ hmem0
  refine ⟨hblen, hbrow, fun i j hne => ?_⟩
  have hpb : (placePiece g).board = placeCells (rotatePiece
    (pieces g.curPieceId) g.curRot) (g.curPieceId.val + 1) g.curX g.curY
    g.board := rfl
  rw [hpb] at hne ⊢
  have hiH : i < BOARD_H := by
    by_contra hge
    apply hne
    have h1 : (placeCells (rotatePiece (pieces g.curPieceId) g.curRot)
        (g.curPieceId.val + 1) g.curX g.curY g.board)[i]? = none :=
      List.getElem?_eq_none (by omega)
    have h2 : g.board[i]? = none := List.getElem?_eq_none (by omega)
    unfold getCell
    rw [h1, h2]
  have hjW : j < BOARD_W := by
    by_contra hge
    apply hne
    have hiL : i < g.board.length := by omega
    have hrow0 : g.board[i]? = some g.board[i] := List.getElem?_eq_getElem hiL
    have hmem0 : g.board[i] ∈ g.board := List.mem_iff_getElem?.mpr ⟨i, hrow0⟩
    have hr0 : g.board[i].length = BOARD_W := hW _ hmem0
    have hk2 := hrow i
    rw [hrow0] at hk2
    simp only [Option.getD_some] at hk2
    unfold getCell
    rw [hrow0]
    simp only [Option.getD_some]
    rw [List.getElem?_eq_none (by omega),
      List.getElem?_eq_none (by omega)]
  have hval := hcell i j hne
  exact ⟨hiH, hjW, hval, by omega⟩

/-- Row full test (the inner `for(c...) if(board[r][c]==0) full=false`
loop of `clearLines`): a row is full iff no cell is `0`. -/
def isFullRow (row : List Nat) : Bool := !(row.any (fun v => v == 0))

/-- The fresh empty row `vector<int>(BOARD_W,0)`. -/
def emptyRow : List Nat := List.replicate BOARD_W 0

/-- The row-shift loop inside `clearLines`:
`for(int rr=r; rr>0; --rr) g.board[rr] = g.board[rr-1]`. -/
def shiftLoop : Nat → Board → Board
  | 0, b => b
  | rr + 1, b => shiftLoop rr (b.set (rr + 1) ((b[rr]?).getD []))

/-- Removal of full row `r` in `clearLines`: shift every row above `r`
down one, then `g.board[0] = vector<int>(BOARD_W,0)`. -/
def shiftDown (r : Nat) (b : Board) : Board := (shiftLoop r b).set 0 emptyRow

/-- The scan loop of `clearLines` over row index `r = k - 1` (at `k = 0`
the scan has passed row 0 and stops; this mirrors
`for(int r=BOARD_H-1; r>=0; --r)` together with the `++r` re-check of
the same index after a shift).  `fuel` bounds the iteration count;
`clearLinesBoard` supplies enough fuel for the loop to finish. -/
def clearLoop : Nat → Board → Nat → Nat → Board × Nat
  | 0, b, _, cleared => (b, cleared)
  | _ + 1, b, 0, cleared => (b, cleared)
  | fuel + 1, b, i + 1, cleared =>
    if isFullRow ((b[i]?).getD []) then
      clearLoop fuel (shiftDown i b) (i + 1) (cleared + 1)
    else
      clearLoop fuel b i cleared

/-- The board part of `clearLines`: scan rows `BOARD_H-1 .. 0` bottom-up
and remove every full row; returns the new board and the count. -/
def clearLinesBoard (b : Board) : Board × Nat :=
  clearLoop (2 * BOARD_H) b BOARD_H 0

/-- `scoreTable` in `clearLines`: `{0,40,100,300,1200}`. -/
def scoreTable : List Nat := [0, 40, 100, 300, 1200]

/-- `clearLines`: clear full rows; when at least one row was cleared,
add `scoreTable[cleared] * level` to the score (at the old level), add
`cleared` to the line count, and recompute `level = 1 + linesCleared/10`. -/
def clearLines (g : Game) : Game × Nat :=
  let res := clearLinesBoard g.board
  let g1 := {g with board := res.1}
  if 0 < res.2 then
    ({g1 with score := g1.score + scoreTable.getD res.2 0 * g1.level,
              linesCleared := g1.linesCleared + res.2,
              level := 1 + (g1.linesCleared + res.2) / 10}, res.2)
  else (g1, res.2)

/-- Number of full rows of a board. -/
def nFull (b : Board) : Nat := (b.filter isFullRow).length

lemma length_shiftLoop : ∀ (r : Nat) (b : Board),
    (shiftLoop r b).length = b.length := by
  intro r
  induction r with
  | zero => exact fun b => rfl
  | succ rr ih => exact fun b => (ih _).trans (List.length_set ..)

lemma getElem?_shiftLoop : ∀ (r : Nat) (b : Board), r < b.length →
    ∀ j : Nat, (shiftLoop r b)[j]? =
      if 1 ≤ j ∧ j ≤ r then b[j - 1]? else b[j]? := by
  intro r
  induction r with
  | zero =>
    intro b _ j
    have : ¬(1 ≤ j ∧ j ≤ 0) := by omega
    rw [if_neg this]
    rfl
  | succ rr ih =>
    intro b hr j
    show (shiftLoop rr (b.set (rr + 1) ((b[rr]?).getD [])))[j]? = _
    have hlen : (b.set (rr + 1) ((b[rr]?).getD [])).length = b.length :=
      List.length_set ..
    rw [ih _ (by omega) j]
    by_cases h1 : 1 ≤ j ∧ j ≤ rr
    · rw [if_pos h1, if_pos (by omega)]
      exact List.getElem?_set_ne (by omega)
    · by_cases h2 : j = rr + 1
      · subst h2
        rw [if_neg h1, if_pos (by omega)]
        rw [List.getElem?_set_self (by omega)]
        have : b[rr]? = some b[rr] := List.getElem?_eq_getElem (by omega)
        rw [show rr + 1 - 1 = rr from rfl, this]
        rfl
      · rw [if_neg h1, if_neg (by omega)]
        exact List.getElem?_set_ne (by omega)

lemma shiftDown_eq (r : Nat) (b : Board) (hr : r < b.length) :
    shiftDown r b = emptyRow :: (b.take r ++ b.drop (r + 1)) := by
  apply List.ext_getElem?
  intro j
  unfold shiftDown
  match j with
  | 0 =>
    rw [List.getElem?_set_self (by rw [length_shiftLoop]; omega)]
    simp
  | j + 1 =>
    rw [List.getElem?_set_ne (by omega), getElem?_shiftLoop r b hr,
      List.getElem?_cons_succ, List.getElem?_append]
    have hlt : (b.take r).length = r := by
      rw [List.length_take]; omega
    by_cases h1 : j < r
    · rw [if_pos (by omega), if_pos (by omega), List.getElem?_take,
        if_pos h1]
      rfl
    · rw [if_neg (by omega), if_neg (by omega), List.getElem?_drop]
      congr 1
      omega

lemma isFullRow_emptyRow : isFullRow emptyRow = false := by decide

/-- Full characterization of the scan loop of `clearLines`: with enough
fuel, scanning the first `k` rows (bottom-up) removes exactly the full
rows among them, shifts the remaining ones down in order, and prepends
that many empty rows at the top. -/
lemma clearLoop_eq : ∀ (fuel : Nat) (b : Board) (k cleared : Nat),
    k ≤ b.length → k + nFull (b.take k) ≤ fuel →
    clearLoop fuel b k cleared =
      (List.replicate (nFull (b.take k)) emptyRow ++
        ((b.take k).filter (fun row => !isFullRow row) ++ b.drop k),
       cleared + nFull (b.take k)) := by
  intro fuel
  induction fuel with
  | zero =>
    intro b k cleared hk hfuel
    have hk0 : k = 0 := by omega
    subst hk0
    simp [clearLoop, nFull]
  | succ fuel ih =>
    intro b k cleared hk hfuel
    match k with
    | 0 => simp [clearLoop, nFull]
    | i + 1 =>
      have hi : i < b.length := by omega
      have hbi : b[i]? = some b[i] := List.getElem?_eq_getElem hi
      have htake : b.take (i + 1) = b.take i ++ [b[i]] := by
        rw [List.take_succ, hbi]
        rfl
      have hlt : (b.take i).length = i := by
        rw [List.length_take]; omega
      simp only [clearLoop, hbi, Option.getD_some]
      by_cases hfull : isFullRow b[i] = true
      · rw [if_pos hfull]
        have hnf : nFull (b.take (i + 1)) = nFull (b.take i) + 1 := by
          unfold nFull
          rw [htake, List.filter_append, List.length_append,
            List.filter_cons, if_pos hfull]
          rfl
        set b2 := shiftDown i b with hb2def
        have hb2 : b2 = emptyRow :: (b.take i ++ b.drop (i + 1)) :=
          shiftDown_eq i b hi
        have hb2len : b.length = b2.length := by
          rw [hb2]
          simp only [List.length_cons, List.length_append, List.length_take,
            List.length_drop]
          omega
        have hb2take : b2.take (i + 1) = emptyRow :: b.take i := by
          rw [hb2, List.take_succ_cons, List.take_left' hlt]
        have hb2drop : b2.drop (i + 1) = b.drop (i + 1) := by
          rw [hb2, List.drop_succ_cons, List.drop_left' hlt]
        have hb2nf : nFull (b2.take (i + 1)) = nFull (b.take i) := by
          rw [hb2take]
          unfold nFull
          rw [List.filter_cons, if_neg (by rw [isFullRow_emptyRow]; simp)]
        rw [ih b2 (i + 1) (cleared + 1) (by omega) (by omega)]
        rw [hb2nf, hb2take, hb2drop, hnf]
        have hfil : (emptyRow :: b.take i).filter (fun row => !isFullRow row) =
            emptyRow :: (b.take i).filter (fun row => !isFullRow row) := by
          rw [List.filter_cons, if_pos (by rw [isFullRow_emptyRow]; rfl)]
        have hfil2 : (b.take (i + 1)).filter (fun row => !isFullRow row) =
            (b.take i).filter (fun row => !isFullRow row) := by
          rw [htake, List.filter_append, List.filter_cons, if_neg (by
            rw [hfull]; simp), List.filter_nil, List.append_nil]
        rw [hfil, hfil2, List.replicate_succ']
        refine Prod.ext ?_ ?_
        · show List.replicate (nFull (b.take i)) emptyRow ++
            (emptyRow :: ((b.take i).filter (fun row => !isFullRow row) ++
              b.drop (i + 1))) =
            (List.replicate (nFull (b.take i)) emptyRow ++ [emptyRow]) ++
            ((b.take i).filter (fun row => !isFullRow row) ++ b.drop (i + 1))
          simp [List.append_assoc]
        · show cleared + 1 + nFull (b.take i) =
            cleared + (nFull (b.take i) + 1)
          omega
      · rw [if_neg hfull]
        have hnf : nFull (b.take (i + 1)) = nFull (b.take i) := by
          unfold nFull
          rw [htake, List.filter_append, List.filter_cons, if_neg (by
            simp [hfull]), List.filter_nil, List.append_nil]
        have hfil2 : (b.take (i + 1)).filter (fun row => !isFullRow row) =
            (b.take i).filter (fun row => !isFullRow row) ++ [b[i]] := by
          rw [htake, List.filter_append, List.filter_cons, if_pos (by
            simp [hfull]), List.filter_nil]
        have hdrop : b.drop i = b[i] :: b.drop (i + 1) :=
          List.drop_eq_getElem_cons hi
        rw [ih b i cleared (by omega) (by omega), hnf, hfil2, hdrop]
        refine Prod.ext ?_ rfl
        simp [List.append_assoc]

/-- Number of filled cells in one row. -/
def rowFilled (row : List Nat) : Nat := (row.filter (fun v => v != 0)).length

/-- Total number of filled cells of a board. -/
def countFilled (b : Board) : Nat := (b.map rowFilled).sum

lemma countFilled_append (a b : Board) :
    countFilled (a ++ b) = countFilled a + countFilled b := by
  unfold countFilled
  rw [List.map_append, List.sum_append]

lemma countFilled_cons (row : List Nat) (b : Board) :
    countFilled (row :: b) = rowFilled row + countFilled b := rfl

lemma rowFilled_emptyRow : rowFilled emptyRow = 0 := by decide

lemma countFilled_replicate_empty (n : Nat) :
    countFilled (List.replicate n emptyRow) = 0 := by
  induction n with
  | zero => rfl
  | succ n ih =>
    rw [List.replicate_succ, countFilled_cons, rowFilled_emptyRow, ih]

lemma rowFilled_of_full {row : List Nat} (h : isFullRow row = true) :
    rowFilled row = row.length := by
  unfold rowFilled
  rw [show row.filter (fun v => v != 0) = row from ?_]
  rw [List.filter_eq_self]
  intro a ha
  unfold isFullRow at h
  simp only [Bool.not_eq_eq_eq_not, Bool.not_true, List.any_eq_false] at h
  simpa using h a ha

lemma countFilled_partition : ∀ b : Board,
    countFilled b = countFilled (b.filter isFullRow) +
      countFilled (b.filter (fun row => !isFullRow row)) := by
  intro b
  induction b with
  | nil => rfl
  | cons row t ih =>
    by_cases h : isFullRow row = true
    · rw [countFilled_cons, List.filter_cons, List.filter_cons, if_pos h,
        if_neg (by rw [h]; simp), countFilled_cons, ih]
      omega
    · rw [countFilled_cons, List.filter_cons, List.filter_cons, if_neg h,
        if_pos (by simp [h]), countFilled_cons, ih]
      omega

lemma countFilled_full_rows {b : Board}
    (hW : ∀ row ∈ b, row.length = BOARD_W) :
    countFilled (b.filter isFullRow) = nFull b * BOARD_W := by
  unfold nFull
  induction b with
  | nil => rfl
  | cons row t ih =>
    have hWt : ∀ r ∈ t, r.length = BOARD_W := fun r hr =>
      hW r (List.mem_cons_of_mem _ hr)
    by_cases h : isFullRow row = true
    · rw [List.filter_cons, if_pos h, countFilled_cons, ih hWt,
        List.length_cons]
      rw [rowFilled_of_full h, hW row (List.mem_cons_self ..)]
      ring
    · rw [List.filter_cons, if_neg h, ih hWt]

/-- C2: on a board of `H` rows of `W` columns, `clearLines` removes
exactly the full rows: the count equals the number of full rows, the
resulting board is that many empty rows on top of the non-full rows in
their original order, the filled-cell count drops by `count * W`, and a
board with no full rows comes back unchanged with count 0. -/
theorem clearLines_board_spec (b : Board) (hH : b.length = BOARD_H)
    (hW : ∀ row ∈ b, row.length = BOARD_W) :
    (clearLinesBoard b).2 = nFull b ∧
    (clearLinesBoard b).1 =
      List.replicate (nFull b) emptyRow ++
        b.filter (fun row => !isFullRow row) ∧
    countFilled (clearLinesBoard b).1 + (clearLinesBoard b).2 * BOARD_W =
      countFilled b ∧
    (nFull b = 0 → (clearLinesBoard b).1 = b ∧ (clearLinesBoard b).2 = 0) := by
  have htake : b.take BOARD_H = b := by
    rw [← hH, List.take_length]
  have hle : nFull b ≤ b.length := List.length_filter_le ..
  have heq := clearLoop_eq (2 * BOARD_H) b BOARD_H 0 (by omega) (by
    rw [htake]; omega)
  rw [htake] at heq
  have hfst : (clearLinesBoard b).1 =
      List.replicate (nFull b) emptyRow ++
        (b.filter (fun row => !isFullRow row) ++ b.drop BOARD_H) := by
    unfold clearLinesBoard
    rw [heq]
  have hdrop : b.drop BOARD_H = [] := by
    apply List.drop_eq_nil_of_le
    omega
  rw [hdrop, List.append_nil] at hfst
  have hsnd : (clearLinesBoard b).2 = nFull b := by
    unfold clearLinesBoard
    rw [heq]
    simp
  refine ⟨hsnd, hfst, ?_, ?_⟩
  · rw [hfst, hsnd, countFilled_append, countFilled_replicate_empty,
      countFilled_partition b, countFilled_full_rows hW]
    omega
  · intro h0
    refine ⟨?_, by rw [hsnd, h0]⟩
    rw [hfst, h0, List.replicate_zero, List.nil_append]
    rw [List.filter_eq_self]
    intro row hrow
    have : b.filter isFullRow = [] := by
      have := h0
      unfold nFull at this
      exact List.length_eq_zero.mp this
    have hnone := List.filter_eq_nil_iff.mp this row hrow
    simp only [Bool.not_eq_true] at hnone ⊢
    rw [hnone]
    rfl

lemma clearLinesBoard_char (b : Board) (hH : b.length = BOARD_H) :
    (clearLinesBoard b).1 =
      List.replicate (nFull b) emptyRow ++
        b.filter (fun row => !isFullRow row) ∧
    (clearLinesBoard b).2 = nFull b := by
  have htake : b.take BOARD_H = b := by
    rw [← hH, List.take_length]
  have hle : nFull b ≤ b.length := List.length_filter_le ..
  have heq := clearLoop_eq (2 * BOARD_H) b BOARD_H 0 (by omega) (by
    rw [htake]; omega)
  rw [htake] at heq
  have hdrop : b.drop BOARD_H = [] := List.drop_eq_nil_of_le (by omega)
  constructor
  · unfold clearLinesBoard
    rw [heq, hdrop]
    simp
  · unfold clearLinesBoard
    rw [heq]
    simp

lemma clearLinesBoard_noFull {b : Board} (hH : b.length = BOARD_H)
    (h0 : nFull b = 0) : (clearLinesBoard b).1 = b := by
  rw [(clearLinesBoard_char b hH).1, h0, List.replicate_zero,
    List.nil_append, List.filter_eq_self]
  intro row hrow
  have hnil : b.filter isFullRow = [] := List.length_eq_zero.mp h0
  have hnone := List.filter_eq_nil_iff.mp hnil row hrow
  simp only [Bool.not_eq_true] at hnone ⊢
  rw [hnone]
  rfl

/-- C3: a clear event removing `n ≤ 4` rows at level `L` adds exactly
`scoreTable[n] * L` to the score (at the level current when the clear
happens), adds `n` to the total line count, and leaves the level equal
to `1 + totalLines / 10`; a clear of 0 rows changes nothing. -/
theorem clearLines_progression (g : Game) (hH : g.board.length = BOARD_H)
    (hlv : g.level = 1 + g.linesCleared / 10) :
    ((clearLines g).2 ≤ 4 → (clearLines g).1.score =
      g.score + scoreTable.getD (clearLines g).2 0 * g.level) ∧
    (clearLines g).1.linesCleared = g.linesCleared + (clearLines g).2 ∧
    (clearLines g).1.level = 1 + (clearLines g).1.linesCleared / 10 ∧
    ((clearLines g).2 = 0 → (clearLines g).1 = g) := by
  have hsnd := (clearLinesBoard_char g.board hH).2
  by_cases h0 : 0 < (clearLinesBoard g.board).2
  · have hcl : clearLines g =
        ({g with board := (clearLinesBoard g.board).1,
                 score := g.score +
                   scoreTable.getD (clearLinesBoard g.board).2 0 * g.level,
                 linesCleared := g.linesCleared + (clearLinesBoard g.board).2,
                 level := 1 +
                   (g.linesCleared + (clearLinesBoard g.board).2) / 10},
         (clearLinesBoard g.board).2) := by
      unfold clearLines
      rw [if_pos h0]
    rw [hcl]
    refine ⟨fun _ => rfl, rfl, rfl, fun hz => absurd hz (by omega)⟩
  · have hz : (clearLinesBoard g.board).2 = 0 := by omega
    have hb : (clearLinesBoard g.board).1 = g.board :=
      clearLinesBoard_noFull hH (by omega)
    have hcl : clearLines g =
        ({g with board := (clearLinesBoard g.board).1},
         (clearLinesBoard g.board).2) := by
      unfold clearLines
      rw [if_neg h0]
    rw [hcl, hb, hz]
    refine ⟨fun _ => by simp [scoreTable], rfl, ?_, fun _ => rfl⟩
    show g.level = 1 + g.linesCleared / 10
    exact hlv

/-- `spawnPiece`: promote the next piece to the active piece, pick a
fresh next kind (`rand() % pieces.size()`, supplied here as the
parameter `newNext`), reset the orientation to 0, center the anchor at
`x = BOARD_W/2 - 2`, `y = -2`, and flag game over if the spawn position
already collides. -/
def spawnPiece (g : Game) (newNext : Fin 7) : Game :=
  let g1 := {g with curPieceId := g.nextPieceId, nextPieceId := newNext,
                    curRot := 0, curX := (BOARD_W : Int) / 2 - 2,
                    curY := -2}
  if collides g1.board g1.curPieceId g1.curRot g1.curX g1.curY then
    {g1 with gameOver := true}
  else g1

/-- C4: spawning sets orientation 0, anchor `(W/2 - 2, -2)`, and takes
the previously selected next kind as the current kind; the game-over
flag becomes true exactly when the spawn position is illegal (and stays
true if it already was); the board and the score are not modified. -/
theorem spawnPiece_spec (g : Game) (newNext : Fin 7) :
    (spawnPiece g newNext).curRot = 0 ∧
    (spawnPiece g newNext).curX = (BOARD_W : Int) / 2 - 2 ∧
    (spawnPiece g newNext).curY = -2 ∧
    (spawnPiece g newNext).curPieceId = g.nextPieceId ∧
    (spawnPiece g newNext).board = g.board ∧
    (spawnPiece g newNext).score = g.score ∧
    (spawnPiece g newNext).gameOver =
      (g.gameOver || collides g.board g.nextPieceId 0
        ((BOARD_W : Int) / 2 - 2) (-2)) := by
  unfold spawnPiece
  by_cases h : collides g.board g.nextPieceId 0 ((BOARD_W : Int) / 2 - 2)
      (-2) = true
  · rw [if_pos h]
    refine ⟨rfl, rfl, rfl, rfl, rfl, rfl, ?_⟩
    rw [h]
    simp
  · rw [if_neg h]
    refine ⟨rfl, rfl, rfl, rfl, rfl, rfl, ?_⟩
    simp only [Bool.not_eq_true] at h
    rw [h]
    simp

/-- Head of the pseudo-random supply of next-piece kinds (each entry
stands for one `rand() % pieces.size()` draw). -/
def popNext : List (Fin 7) → Fin 7 × List (Fin 7)
  | [] => (0, [])
  | n :: rest => (n, rest)

/-- The lock sequence shared by soft drop, hard drop and gravity:
`placePiece(g); clearLines(g); spawnPiece(g);`. -/
def lockFlow (g : Game) (sup : List (Fin 7)) : Game × List (Fin 7) :=
  let g1 := placePiece g
  let g2 := (clearLines g1).1
  let pr := popNext sup
  (spawnPiece g2 pr.1, pr.2)

/-- The hard-drop descent `while(!collides(...curY+1)) g.curY++;`
written with explicit fuel (any piece shape with at least one filled
cell stops within `BOARD_H + 4` rows of descent; `hardDrop` supplies
enough fuel for every start position). -/
def hardDropAux : Nat → Game → Game
  | 0, g => g
  | fuel + 1, g =>
    if collides g.board g.curPieceId g.curRot g.curX (g.curY + 1) then g
    else hardDropAux fuel {g with curY := g.curY + 1}

/-- The descent loop of the hard-drop handler. -/
def hardDrop (g : Game) : Game :=
  hardDropAux ((BOARD_H : Int) + 4 - g.curY).toNat g

/-- One keypress of the (unpaused) input handlers in `main`:
`a`/`A` move left, `d`/`D` move right, `s`/`S`/`B` soft drop,
`w`/`W` rotate clockwise, space hard drop; each movement is tried via
`collides` and committed only when legal.  (`q`/`p` are handled by
`processInputs` since they control the input loop itself.) -/
def handleCh (g : Game) (ch : Char) (sup : List (Fin 7)) :
    Game × List (Fin 7) :=
  if ch = 'a' ∨ ch = 'A' then
    (if collides g.board g.curPieceId g.curRot (g.curX - 1) g.curY then g
     else {g with curX := g.curX - 1}, sup)
  else if ch = 'd' ∨ ch = 'D' then
    (if collides g.board g.curPieceId g.curRot (g.curX + 1) g.curY then g
     else {g with curX := g.curX + 1}, sup)
  else if ch = 's' ∨ ch = 'S' ∨ ch = 'B' then
    if collides g.board g.curPieceId g.curRot g.curX (g.curY + 1) then
      lockFlow g sup
    else ({g with curY := g.curY + 1}, sup)
  else if ch = 'w' ∨ ch = 'W' then
    (if collides g.board g.curPieceId ((g.curRot + 1) % 4) g.curX g.curY
     then g
     else {g with curRot := (g.curRot + 1) % 4}, sup)
  else if ch = ' ' then
    lockFlow (hardDrop g) sup
  else (g, sup)

/-- The input-draining loop `while(kbHit())` of `main`: `q` sets the
game-over flag and breaks (remaining buffered input is dropped), `p`
toggles the pause flag, and while paused the movement keys are ignored. -/
def processInputs : Game → Bool → List Char → List (Fin 7) →
    Game × Bool × List (Fin 7)
  | g, paused, [], sup => (g, paused, sup)
  | g, paused, ch :: rest, sup =>
    if ch = 'q' ∨ ch = 'Q' then ({g with gameOver := true}, paused, sup)
    else if ch = 'p' ∨ ch = 'P' then processInputs g (!paused) rest sup
    else if paused then processInputs g paused rest sup
    else
      let r := handleCh g ch sup
      processInputs r.1 paused rest r.2

/-- The gravity step of `main` (taken when the elapsed time reaches the
gravity interval): move down one row if legal, otherwise lock, clear and
respawn. -/
def gravityStep (g : Game) (sup : List (Fin 7)) : Game × List (Fin 7) :=
  if collides g.board g.curPieceId g.curRot g.curX (g.curY + 1) then
    lockFlow g sup
  else ({g with curY := g.curY + 1}, sup)

/-- One iteration of the outer `while(true)` loop of `main`: if the
game-over flag is set the loop breaks (no further mutation); otherwise
all buffered input is drained, then — unless paused — the gravity step
runs when due.  `due` stands for `elapsed >= gravityInterval`. -/
def iterStep (g : Game) (paused : Bool) (inputs : List Char) (due : Bool)
    (sup : List (Fin 7)) : Game × Bool × List (Fin 7) :=
  if g.gameOver then (g, paused, sup)
  else
    let r := processInputs g paused inputs sup
    if r.2.1 then r
    else if due then
      let r2 := gravityStep r.1 r.2.2
      (r2.1, r.2.1, r2.2)
    else r

lemma gameOver_placePiece (g : Game) : (placePiece g).gameOver = g.gameOver :=
  rfl

lemma clearLines_gameOver (g : Game) :
    (clearLines g).1.gameOver = g.gameOver := by
  unfold clearLines
  by_cases h : 0 < (clearLinesBoard g.board).2
  · rw [if_pos h]
  · rw [if_neg h]

lemma spawnPiece_gameOver_true {g : Game} (h : g.gameOver = true)
    (nn : Fin 7) : (spawnPiece g nn).gameOver = true := by
  unfold spawnPiece
  dsimp only
  split
  · rfl
  · exact h

lemma lockFlow_gameOver_true {g : Game} (h : g.gameOver = true)
    (sup : List (Fin 7)) : (lockFlow g sup).1.gameOver = true := by
  unfold lockFlow
  apply spawnPiece_gameOver_true
  rw [clearLines_gameOver, gameOver_placePiece]
  exact h

lemma hardDropAux_gameOver : ∀ (fuel : Nat) (g : Game),
    (hardDropAux fuel g).gameOver = g.gameOver := by
  intro fuel
  induction fuel with
  | zero => exact fun g => rfl
  | succ fuel ih =>
    intro g
    unfold hardDropAux
    split
    · rfl
    · exact ih _

lemma hardDrop_gameOver (g : Game) : (hardDrop g).gameOver = g.gameOver :=
  hardDropAux_gameOver _ g

lemma handleCh_gameOver_true {g : Game} (h : g.gameOver = true)
    (ch : Char) (sup : List (Fin 7)) :
    (handleCh g ch sup).1.gameOver = true := by
  unfold handleCh
  split
  · split
    · exact h
    · exact h
  · split
    · split
      · exact h
      · exact h
    · split
      · split
        · exact lockFlow_gameOver_true h sup
        · exact h
      · split
        · split
          · exact h
          · exact h
        · split
          · apply lockFlow_gameOver_true
            rw [hardDrop_gameOver]
            exact h
          · exact h

lemma gravityStep_gameOver_true {g : Game} (h : g.gameOver = true)
    (sup : List (Fin 7)) : (gravityStep g sup).1.gameOver = true := by
  unfold gravityStep
  split
  · exact lockFlow_gameOver_true h sup
  · exact h

lemma processInputs_gameOver_true : ∀ (inputs : List Char) (g : Game)
    (paused : Bool) (sup : List (Fin 7)), g.gameOver = true →
    (processInputs g paused inputs sup).1.gameOver = true := by
  intro inputs
  induction inputs with
  | nil => exact fun g paused sup h => h
  | cons ch rest ih =>
    intro g paused sup h
    unfold processInputs
    split
    · rfl
    · split
      · exact ih g (!paused) sup h
      · split
        · exact ih g paused sup h
        · exact ih _ paused _ (handleCh_gameOver_true h ch sup)

/-- C5 (amended): once the game-over flag is true at the start of a
main-loop iteration, the iteration is a no-op (the loop breaks), so no
later operation ever mutates board, piece, score, lines or level; and
the flag is never reset by any individual handler, the gravity step, or
the input-draining loop even within an iteration. -/
theorem gameOver_loop_terminal (g : Game) (paused : Bool)
    (inputs : List Char) (due : Bool) (sup : List (Fin 7))
    (h : g.gameOver = true) :
    iterStep g paused inputs due sup = (g, paused, sup) ∧
    (∀ (ch : Char) (sup2 : List (Fin 7)),
      (handleCh g ch sup2).1.gameOver = true) ∧
    (∀ sup2 : List (Fin 7), (gravityStep g sup2).1.gameOver = true) ∧
    (∀ (inputs2 : List Char) (paused2 : Bool) (sup2 : List (Fin 7)),
      (processInputs g paused2 inputs2 sup2).1.gameOver = true) := by
  refine ⟨?_, fun ch sup2 => handleCh_gameOver_true h ch sup2,
    fun sup2 => gravityStep_gameOver_true h sup2,
    fun inputs2 paused2 sup2 =>
      processInputs_gameOver_true inputs2 g paused2 sup2 h⟩
  unfold iterStep
  rw [if_pos h]

/-- The concrete game state used by witnesses: the initial state of
`main` (empty 20x10 board) with an O piece just spawned at the top
center and an I piece queued next. -/
def g0 : Game :=
  {board := List.replicate BOARD_H (List.replicate BOARD_W 0),
   curPieceId := 3, curRot := 0, curX := 3, curY := -2, nextPieceId := 0,
   gameOver := false, score := 0, level := 1, linesCleared := 0}

/-- C5 (counterexample): from `g0`, a buffered `q` sets the game-over
flag while the input loop breaks, yet the gravity step of the very same
iteration still runs on that game-over state and moves the active piece
down — so the claim that a state with the flag set is never mutated by a
subsequent gravity tick is false. -/
theorem gameOver_not_operation_sticky :
    (processInputs g0 false ['q'] []).1.gameOver = true ∧
    (iterStep g0 false ['q'] true []).1 =
      (gravityStep (processInputs g0 false ['q'] []).1 []).1 ∧
    (iterStep g0 false ['q'] true []).1 ≠
      (processInputs g0 false ['q'] []).1 ∧
    (iterStep g0 false ['q'] true []).1.curY ≠
      (processInputs g0 false ['q'] []).1.curY := by
  refine ⟨by decide, by decide, by decide, by decide⟩

/-- C6: a move-left, move-right or rotate-clockwise request commits the
candidate position/orientation exactly when it passes the collision
check, and otherwise leaves the state unchanged (silent rejection, no
partial modification). -/
theorem move_rotate_try_commit (g : Game) (sup : List (Fin 7)) :
    (collides g.board g.curPieceId g.curRot (g.curX - 1) g.curY = false →
      handleCh g 'a' sup = ({g with curX := g.curX - 1}, sup)) ∧
    (collides g.board g.curPieceId g.curRot (g.curX - 1) g.curY = true →
      handleCh g 'a' sup = (g, sup)) ∧
    (collides g.board g.curPieceId g.curRot (g.curX + 1) g.curY = false →
      handleCh g 'd' sup = ({g with curX := g.curX + 1}, sup)) ∧
    (collides g.board g.curPieceId g.curRot (g.curX + 1) g.curY = true →
      handleCh g 'd' sup = (g, sup)) ∧
    (collides g.board g.curPieceId ((g.curRot + 1) % 4) g.curX g.curY =
        false →
      handleCh g 'w' sup = ({g with curRot := (g.curRot + 1) % 4}, sup)) ∧
    (collides g.board g.curPieceId ((g.curRot + 1) % 4) g.curX g.curY =
        true →
      handleCh g 'w' sup = (g, sup)) := by
  refine ⟨fun h => ?_, fun h => ?_, fun h => ?_, fun h => ?_, fun h => ?_,
    fun h => ?_⟩
  · unfold handleCh
    rw [if_pos (by decide), if_neg (by rw [h]; exact Bool.false_ne_true)]
  · unfold handleCh
    rw [if_pos (by decide), if_pos h]
  · unfold handleCh
    rw [if_neg (by decide), if_pos (by decide),
      if_neg (by rw [h]; exact Bool.false_ne_true)]
  · unfold handleCh
    rw [if_neg (by decide), if_pos (by decide), if_pos h]
  · unfold handleCh
    rw [if_neg (by decide), if_neg (by decide), if_neg (by decide),
      if_pos (by decide), if_neg (by rw [h]; exact Bool.false_ne_true)]
  · unfold handleCh
    rw [if_neg (by decide), if_neg (by decide), if_neg (by decide),
      if_pos (by decide), if_pos h]

/-- `b'` agrees with `b` everywhere except possibly at row index `i`. -/
def agreeExcept (b b' : Board) (i : Nat) : Prop :=
  b'.length = b.length ∧ ∀ j : Nat, j ≠ i → b'[j]? = b[j]?

lemma nFull_cons (row : List Nat) (b : Board) :
    nFull (row :: b) = (if isFullRow row then 1 else 0) + nFull b := by
  unfold nFull
  rw [List.filter_cons]
  split
  · rw [List.length_cons]
    omega
  · omega

lemma nFull_set_le : ∀ (b : Board) (i : Nat) (row : List Nat),
    nFull (b.set i row) ≤ nFull b + 1 := by
  intro b
  induction b with
  | nil =>
    intro i row
    rw [List.set_nil]
    omega
  | cons hd t ih =>
    intro i row
    match i with
    | 0 =>
      rw [List.set_cons_zero, nFull_cons, nFull_cons]
      split <;> split <;> omega
    | i + 1 =>
      rw [List.set_cons_succ, nFull_cons, nFull_cons]
      have := ih i row
      omega

lemma agreeExcept_cases {b b' : Board} {i : Nat} (h : agreeExcept b b' i) :
    b' = b ∨ ∃ row, b' = b.set i row := by
  obtain ⟨hlen, hag⟩ := h
  by_cases hi : i < b.length
  · right
    have hi' : i < b'.length := by omega
    refine ⟨b'[i], List.ext_getElem? fun j => ?_⟩
    by_cases hj : j = i
    · subst hj
      rw [List.getElem?_set_self hi, List.getElem?_eq_getElem hi']
    · rw [List.getElem?_set_ne (by omega), hag j hj]
  · left
    apply List.ext_getElem?
    intro j
    by_cases hj : j = i
    · subst hj
      rw [List.getElem?_eq_none (by omega), List.getElem?_eq_none (by omega)]
    · exact hag j hj

lemma nFull_agreeExcept_le {b b' : Board} {i : Nat}
    (h : agreeExcept b b' i) : nFull b' ≤ nFull b + 1 := by
  rcases agreeExcept_cases h with heq | ⟨row, heq⟩
  · rw [heq]
    omega
  · rw [heq]
    exact nFull_set_le b i row

lemma agreeExcept_setCell {b b' : Board} {i : Nat} (h : agreeExcept b b' i)
    (j v : Nat) : agreeExcept b (setCell b' i j v) i := by
  obtain ⟨hlen, hag⟩ := h
  refine ⟨(List.length_set ..).trans hlen, fun k hk => ?_⟩
  show (b'.set i (((b'[i]?).getD []).set j v))[k]? = b[k]?
  rw [List.getElem?_set_ne (by omega)]
  exact hag k hk

lemma innerRow_agree (p : Shape) (v : Nat) (x y : Int) (r : Fin 4)
    (b : Board) :
    agreeExcept b ((List.finRange 4).foldl (fun b c =>
      if p r c then
        if 0 ≤ y + (r.val : Int) ∧ y + (r.val : Int) < (BOARD_H : Int) ∧
            0 ≤ x + (c.val : Int) ∧ x + (c.val : Int) < (BOARD_W : Int) then
          setCell b (y + (r.val : Int)).toNat (x + (c.val : Int)).toNat v
        else b
      else b) b) ((y + (r.val : Int)).toNat) := by
  refine foldl_preserves
    (fun b2 => agreeExcept b b2 ((y + (r.val : Int)).toNat)) _
    (fun b2 c h => ?_) _ b ⟨rfl, fun _ _ => rfl⟩
  dsimp only
  split
  · split
    · exact agreeExcept_setCell h ..
    · exact h
  · exact h

lemma innerFold_nFull_le (p : Shape) (v : Nat) (x y : Int) (r : Fin 4)
    (b : Board) :
    nFull ((List.finRange 4).foldl (fun b c =>
      if p r c then
        if 0 ≤ y + (r.val : Int) ∧ y + (r.val : Int) < (BOARD_H : Int) ∧
            0 ≤ x + (c.val : Int) ∧ x + (c.val : Int) < (BOARD_W : Int) then
          setCell b (y + (r.val : Int)).toNat (x + (c.val : Int)).toNat v
        else b
      else b) b) ≤ nFull b + 1 :=
  nFull_agreeExcept_le (innerRow_agree p v x y r b)

lemma foldl_finRange_four {β : Type} (f : β → Fin 4 → β) (b : β) :
    (List.finRange 4).foldl f b = f (f (f (f b 0) 1) 2) 3 := by
  have hfr : (List.finRange 4) = [0, 1, 2, 3] := by decide
  rw [hfr]
  rfl

lemma nFull_placeCells_le (p : Shape) (v : Nat) (x y : Int) (b : Board) :
    nFull (placeCells p v x y b) ≤ nFull b + 4 := by
  unfold placeCells
  rw [foldl_finRange_four]
  refine le_trans (innerFold_nFull_le p v x y 3 _) ?_
  refine le_trans (Nat.add_le_add_right (innerFold_nFull_le p v x y 2 _) 1) ?_
  refine le_trans (Nat.add_le_add_right (Nat.add_le_add_right
    (innerFold_nFull_le p v x y 1 _) 1) 1) ?_
  refine le_trans (Nat.add_le_add_right (Nat.add_le_add_right
    (Nat.add_le_add_right (innerFold_nFull_le p v x y 0 b) 1) 1) 1) ?_
  omega

lemma clearLines_snd (g : Game) :
    (clearLines g).2 = (clearLinesBoard g.board).2 := by
  unfold clearLines
  by_cases h : 0 < (clearLinesBoard g.board).2
  · rw [if_pos h]
  · rw [if_neg h]

/-- C9: locking one piece on a board with no full rows and then clearing
removes at most 4 rows (a piece spans at most 4 rows). -/
theorem lock_then_clear_le_four (g : Game) (hH : g.board.length = BOARD_H)
    (hF : nFull g.board = 0) :
    (clearLines (placePiece g)).2 ≤ 4 := by
  have hinv := writeInv_placeCells (rotatePiece (pieces g.curPieceId)
    g.curRot) (g.curPieceId.val + 1) g.curX g.curY g.board
  have hlen : (placePiece g).board.length = BOARD_H := by
    have h1 := hinv.1
    show (placeCells (rotatePiece (pieces g.curPieceId) g.curRot)
      (g.curPieceId.val + 1) g.curX g.curY g.board).length = BOARD_H
    omega
  have hchar := (clearLinesBoard_char (placePiece g).board hlen).2
  have hle : nFull (placePiece g).board ≤ nFull g.board + 4 :=
    nFull_placeCells_le (rotatePiece (pieces g.curPieceId) g.curRot)
      (g.curPieceId.val + 1) g.curX g.curY g.board
  rw [clearLines_snd, hchar]
  omega

/-- A 20x10 board whose bottom row is full and all other cells empty. -/
def b0w : Board :=
  List.replicate 19 (List.replicate 10 0) ++ [List.replicate 10 1]

/-- `g0` with the one-full-row board `b0w`. -/
def g1w : Game := {g0 with board := b0w}

/-- `g0` with the game-over flag set. -/
def g2w : Game := {g0 with gameOver := true}

theorem clearLines_board_spec_witness :
    (b0w.length = BOARD_H ∧ ∀ row ∈ b0w, row.length = BOARD_W) ∧
    ((clearLinesBoard b0w).2 = nFull b0w ∧
     (clearLinesBoard b0w).1 =
       List.replicate (nFull b0w) emptyRow ++
         b0w.filter (fun row => !isFullRow row) ∧
     countFilled (clearLinesBoard b0w).1 +
       (clearLinesBoard b0w).2 * BOARD_W = countFilled b0w ∧
     (nFull b0w = 0 →
       (clearLinesBoard b0w).1 = b0w ∧ (clearLinesBoard b0w).2 = 0)) :=
  ⟨⟨by decide, by decide⟩, clearLines_board_spec b0w (by decide) (by decide)⟩

theorem clearLines_progression_witness :
    (g1w.board.length = BOARD_H ∧ g1w.level = 1 + g1w.linesCleared / 10) ∧
    (((clearLines g1w).2 ≤ 4 → (clearLines g1w).1.score =
       g1w.score + scoreTable.getD (clearLines g1w).2 0 * g1w.level) ∧
     (clearLines g1w).1.linesCleared =
       g1w.linesCleared + (clearLines g1w).2 ∧
     (clearLines g1w).1.level = 1 + (clearLines g1w).1.linesCleared / 10 ∧
     ((clearLines g1w).2 = 0 → (clearLines g1w).1 = g1w)) :=
  ⟨⟨by decide, by decide⟩,
    clearLines_progression g1w (by decide) (by decide)⟩

theorem gameOver_loop_terminal_witness :
    g2w.gameOver = true ∧
    (iterStep g2w false ['s'] true [] = (g2w, false, []) ∧
     (∀ (ch : Char) (sup2 : List (Fin 7)),
       (handleCh g2w ch sup2).1.gameOver = true) ∧
     (∀ sup2 : List (Fin 7), (gravityStep g2w sup2).1.gameOver = true) ∧
     (∀ (inputs2 : List Char) (paused2 : Bool) (sup2 : List (Fin 7)),
       (processInputs g2w paused2 inputs2 sup2).1.gameOver = true)) :=
  ⟨by decide, gameOver_loop_terminal g2w false ['s'] true [] (by decide)⟩

theorem move_rotate_try_commit_witness :
    collides g0.board g0.curPieceId g0.curRot (g0.curX - 1) g0.curY =
      false ∧
    handleCh g0 'a' [] = ({g0 with curX := g0.curX - 1}, []) :=
  ⟨by decide, (move_rotate_try_commit g0 []).1 (by decide)⟩

theorem lock_then_clear_le_four_witness :
    (g0.board.length = BOARD_H ∧ nFull g0.board = 0) ∧
    (clearLines (placePiece g0)).2 ≤ 4 :=
  ⟨⟨by decide, by decide⟩, lock_then_clear_le_four g0 (by decide) (by decide)⟩

theorem placePiece_safe_witness :
    (g0.board.length = BOARD_H ∧ ∀ row ∈ g0.board, row.length = BOARD_W) ∧
    ((placePiece g0).board.length = BOARD_H ∧
     (∀ row ∈ (placePiece g0).board, row.length = BOARD_W) ∧
     (∀ i j, getCell (placePiece g0).board i j ≠ getCell g0.board i j →
       i < BOARD_H ∧ j < BOARD_W ∧
       getCell (placePiece g0).board i j = g0.curPieceId.val + 1 ∧
       getCell (placePiece g0).board i j ≠ 0)) :=
  ⟨⟨by decide, by decide⟩, placePiece_safe g0 (by decide) (by decide)⟩
